import Mathlib

/-!
Shallow embedding of the core relay engine of the omni-bridge worker:
the checkpoint data model (`SyncCheckpoint`, ethereum/listener/src/primitives.rs),
the listener sync loop (`Listener::sync`, bridge-core/src/listener.rs),
the relay router (`Relay`, bridge-core/src/relay.rs as used by the listener),
the substrate destination relayer error classification
(substrate/relayer/src/lib.rs), the substrate source fetcher
(substrate/listener/src/fetcher.rs), and configuration validation
(`BridgeConfig::validate`, bridge-core/src/config.rs).

Machine integers (u64, u128, u32) are modelled as `Nat`; none of the embedded
code paths rely on wrap-around arithmetic (the single subtraction in the
listener is Rust `checked_sub`, modelled explicitly).  Effectful collaborator
calls (RPC fetches, relay submissions, the stop channel) are modelled as
oracle functions supplied through an environment record, indexed by loop
iteration / retry attempt, and fallible calls return `Except`/`Option`
results exactly as the Rust `Result`s they embed.
-/

namespace OmniBridge

/-- Identifier of an EVM log, `LogId` from ethereum/listener/src/primitives.rs:
`{ block_num: u64, tx_idx: u64, log_idx: u64 }`. -/
structure LogId where
  block_num : Nat
  tx_idx : Nat
  log_idx : Nat
deriving DecidableEq, Repr

/-- Ethereum sync checkpoint, `SyncCheckpoint` from
ethereum/listener/src/primitives.rs:
`{ block_num: u64, tx_idx: Option<u64>, log_idx: Option<u64> }`. -/
structure SyncCheckpoint where
  block_num : Nat
  tx_idx : Option Nat
  log_idx : Option Nat
deriving DecidableEq, Repr

namespace SyncCheckpoint

/-- `SyncCheckpoint::from_log_id`. -/
def from_log_id (id : LogId) : SyncCheckpoint :=
  { block_num := id.block_num, tx_idx := some id.tx_idx, log_idx := some id.log_idx }

/-- `SyncCheckpoint::from_block_num` (also the `From<u64>` impl). -/
def from_block_num (block_num : Nat) : SyncCheckpoint :=
  { block_num := block_num, tx_idx := none, log_idx := none }

/-- `SyncCheckpoint::just_block_num`. -/
def just_block_num (c : SyncCheckpoint) : Bool :=
  c.log_idx.isNone && c.tx_idx.isNone

/-- The Rust `PartialOrd`/`Ord` comparison on `Option<u64>`:
`None` is less than `Some _`, and `Some a` compares as `a` against `b`. -/
def optCmp : Option Nat → Option Nat → Ordering
  | none, none => .eq
  | none, some _ => .lt
  | some _, none => .gt
  | some a, some b => compare a b

/-- The `PartialOrd for SyncCheckpoint` impl from
ethereum/listener/src/primitives.rs.  The Rust code always returns
`Some(ordering)`, so the comparison is embedded as a total `Ordering`. -/
def cmp (a b : SyncCheckpoint) : Ordering :=
  if a.block_num > b.block_num then .gt
  else if a.block_num < b.block_num then .lt
  else if optCmp a.tx_idx b.tx_idx = .gt then .gt
  else if optCmp a.tx_idx b.tx_idx = .lt then .lt
  else if optCmp a.log_idx b.log_idx = .gt then .gt
  else if optCmp a.log_idx b.log_idx = .lt then .lt
  else .eq

/-- Rust `a.lt(&b)` derived from `PartialOrd`: true iff the comparison
returns `Some(Less)`. -/
def lt (a b : SyncCheckpoint) : Bool :=
  cmp a b = .lt

/-- Rust `a.le(&b)` derived from `PartialOrd`: true iff the comparison
returns `Some(Less)` or `Some(Equal)`. -/
def le (a b : SyncCheckpoint) : Bool :=
  cmp a b ≠ .gt

end SyncCheckpoint

namespace LogId

/-- Lexicographic strict order on log ids: `(block_num, tx_idx, log_idx)`.
This is the total event order of EVM-style deposit events (spec section 3). -/
def ltLex (a b : LogId) : Prop :=
  a.block_num < b.block_num ∨
    (a.block_num = b.block_num ∧
      (a.tx_idx < b.tx_idx ∨ (a.tx_idx = b.tx_idx ∧ a.log_idx < b.log_idx)))

/-- Lexicographic reflexive order on log ids. -/
def leLex (a b : LogId) : Prop :=
  ltLex a b ∨ a = b

instance : DecidablePred fun p : LogId × LogId => ltLex p.1 p.2 := by
  intro p
  unfold ltLex
  infer_instance

instance (a b : LogId) : Decidable (ltLex a b) := by
  unfold ltLex
  infer_instance

instance (a b : LogId) : Decidable (leLex a b) := by
  unfold leLex
  infer_instance

end LogId

/-- Comparison under which a block-complete checkpoint sorts above every
event-partial checkpoint of the same block (the intended reading of the
checkpoint order in spec section 4.1): blocks compare first, and inside one
block `None` sorts above any index. -/
def cmpNoneTop : Option Nat → Option Nat → Ordering
  | none, none => .eq
  | none, some _ => .gt
  | some _, none => .lt
  | some a, some b => compare a b

/-- Checkpoint comparison with block-complete checkpoints sorting above the
event-partial checkpoints of the same block; used to state the amended
monotonicity invariant. -/
def SyncCheckpoint.cmpCompleteTop (a b : SyncCheckpoint) : Ordering :=
  if a.block_num > b.block_num then .gt
  else if a.block_num < b.block_num then .lt
  else if cmpNoneTop a.tx_idx b.tx_idx = .gt then .gt
  else if cmpNoneTop a.tx_idx b.tx_idx = .lt then .lt
  else if cmpNoneTop a.log_idx b.log_idx = .gt then .gt
  else if cmpNoneTop a.log_idx b.log_idx = .lt then .lt
  else .eq

/-- Reflexive order derived from `SyncCheckpoint.cmpCompleteTop`. -/
def SyncCheckpoint.leCompleteTop (a b : SyncCheckpoint) : Prop :=
  SyncCheckpoint.cmpCompleteTop a b ≠ .gt

instance (a b : SyncCheckpoint) : Decidable (SyncCheckpoint.leCompleteTop a b) := by
  unfold SyncCheckpoint.leCompleteTop
  infer_instance

/-- Relay error classification, `RelayError` from bridge-core.  The enum
itself lives in the bridge-core relay module; its four variants are exactly
the ones matched by `Listener::sync` (bridge-core/src/listener.rs) and
produced by the relayers (substrate/relayer/src/lib.rs,
ethereum/relayer/src/lib.rs). -/
inductive RelayError
  | TransportError
  | WatchError
  | AlreadyRelayed
  | Other
deriving DecidableEq, Repr

/-- A `PayIn` event (bridge-core/src/listener.rs), instantiated at the
EVM-style id type `LogId` and destination id type `String`, the
instantiation under which the ethereum `SyncCheckpoint` order cited by the
spec is used. -/
structure PayIn where
  id : LogId
  maybe_destination_id : Option String
  amount : Nat
  nonce : Nat
  resource_id : List Nat
  data : List Nat
deriving DecidableEq, Repr

/-- The `Relay` routing enum from bridge-core/src/relay.rs as used by
`Listener::sync`: either a single relayer consuming every event, or a map
from destination id to relayer.  The `HashMap` is modelled as an
association list, queried only through `mapGet`. -/
inductive Relay (R : Type)
  | Single (r : R)
  | Multi (m : List (String × R))

/-- `HashMap::get` on the association-list model of the relayer map. -/
def mapGet {R : Type} : List (String × R) → String → Option R
  | [], _ => none
  | (k, v) :: rest, key => if k = key then some v else mapGet rest key

/-- Relayer selection for one event, the `match self.relay` block at the top
of the per-event body of `Listener::sync`: a single route always yields the
configured relayer; a multi route looks the destination id of the event up
in the map, yielding nothing when the event carries no destination id or the
id is absent from the map. -/
def routeEvent {R : Type} (relay : Relay R) (ev : PayIn) : Option R :=
  match relay with
  | .Single r => some r
  | .Multi m =>
    match ev.maybe_destination_id with
    | some d => mapGet m d
    | none => none

/-- Observable actions of one listener run: a call to `Relayer::relay` (with
the selected relayer and the event whose fields are passed), a one-second
sleep, and a checkpoint save. -/
inductive Action (R : Type)
  | relayCall (r : R) (ev : PayIn)
  | sleepSec
  | save (c : SyncCheckpoint)
deriving DecidableEq

/-- The checkpoint saves of a trace, in order. -/
def savesOf {R : Type} : List (Action R) → List SyncCheckpoint
  | [] => []
  | .save c :: rest => c :: savesOf rest
  | _ :: rest => savesOf rest

/-- Number of relay calls carrying the fields of event `ev` in a trace. -/
def callsFor {R : Type} (ev : PayIn) : List (Action R) → Nat
  | [] => 0
  | .relayCall _ e :: rest => (if e = ev then 1 else 0) + callsFor ev rest
  | _ :: rest => callsFor ev rest

/-- The bounded retry loop (`'relay: loop`) of `Listener::sync`.  In the
Rust code `attempt` starts at 1 and the loop returns `Err(())` as soon as
`attempt > 10`; here `attempt` is kept (it indexes the outcome oracle) and
the recursion is driven by `rem = 11 - attempt`, the number of attempts
still allowed, so `rem = 0` is exactly the `attempt > 10` exit.  `outcome
attempt` is the result of the `relayer.relay(...)` call of that attempt
(`none` embeds `Ok(())`).  The boolean result is `true` when the loop breaks
(success or `AlreadyRelayed`) and `false` when `sync` returns `Err(())`
(`Other`, or the attempt budget exceeded). -/
def relayGo {R : Type} (r : R) (ev : PayIn) (outcome : Nat → Option RelayError) :
    Nat → Nat → List (Action R) × Bool
  | _, 0 => ([], false)
  | attempt, rem + 1 =>
    match outcome attempt with
    | some .TransportError =>
      let rest := relayGo r ev outcome (attempt + 1) rem
      (.relayCall r ev :: .sleepSec :: rest.1, rest.2)
    | some .Other => ([.relayCall r ev], false)
    | some .WatchError =>
      let rest := relayGo r ev outcome (attempt + 1) rem
      (.relayCall r ev :: rest.1, rest.2)
    | some .AlreadyRelayed => ([.relayCall r ev], true)
    | none => ([.relayCall r ev], true)

/-- The retry loop entered at `attempt = 1` with 10 allowed attempts. -/
def relayAttempts {R : Type} (r : R) (ev : PayIn) (outcome : Nat → Option RelayError) :
    List (Action R) × Bool :=
  relayGo r ev outcome 1 10

/-- One iteration of the `for event in events` body of `Listener::sync`.

Modelled from the spec: the bridge-core sync checkpoint repository module is
not present under src/ (only its trait methods `get` and `save` appear in
listener.rs); per spec section 4.1 `read` returns the last committed value
and `save` overwrites it, so the repository is threaded as an
`Option SyncCheckpoint` state.

The body routes the event; when a relayer is selected it reads the current
checkpoint and, unless the checkpoint exists and is not strictly below the
event (the resume filter `checkpoint.lt(&event.id.into())`), runs the retry
loop; a loop failure makes `sync` return `Err(())` at once, with no save.
This definition is the routing-and-retry part; `processEvent` below adds
the unconditional save.  The boolean is `true` unless the retry loop made
`sync` return `Err(())`. -/
def processEventStep {R : Type} (relay : Relay R)
    (behavior : R → PayIn → Nat → Option RelayError)
    (cp : Option SyncCheckpoint) (ev : PayIn) :
    List (Action R) × Bool :=
  match routeEvent relay ev with
  | some r =>
    match cp with
    | some c =>
      if SyncCheckpoint.lt c (SyncCheckpoint.from_log_id ev.id) then
        relayAttempts r ev (behavior r ev)
      else ([], true)
    | none => relayAttempts r ev (behavior r ev)
  | none => ([], true)

/-- The tail of the per-event body: on a completed (or skipped, or
unrouted) event the event checkpoint `event.id.into()` is saved; on a relay
failure `sync` returns `Err(())` immediately, without saving. -/
def processEvent {R : Type} (relay : Relay R)
    (behavior : R → PayIn → Nat → Option RelayError)
    (cp : Option SyncCheckpoint) (ev : PayIn) :
    List (Action R) × Option SyncCheckpoint × Bool :=
  let step := processEventStep relay behavior cp ev
  if step.2 then
    (step.1 ++ [.save (SyncCheckpoint.from_log_id ev.id)],
      some (SyncCheckpoint.from_log_id ev.id), true)
  else (step.1, cp, false)

/-- The whole `for event in events` loop over the events of one block. -/
def processEvents {R : Type} (relay : Relay R)
    (behavior : R → PayIn → Nat → Option RelayError)
    (cp : Option SyncCheckpoint) :
    List PayIn → List (Action R) × Option SyncCheckpoint × Bool
  | [] => ([], cp, true)
  | ev :: rest =>
    let s := processEvent relay behavior cp ev
    if s.2.2 then
      let s2 := processEvents relay behavior s.2.1 rest
      (s.1 ++ s2.1, s2.2.1, s2.2.2)
    else s

/-- Processing of one fetched block: the event loop followed, on success, by
the block-complete save `CheckpointT::from(block_number_to_sync)`. -/
def processBlock {R : Type} (relay : Relay R)
    (behavior : R → PayIn → Nat → Option RelayError)
    (cp : Option SyncCheckpoint) (block_num : Nat) (events : List PayIn) :
    List (Action R) × Option SyncCheckpoint × Bool :=
  let s := processEvents relay behavior cp events
  if s.2.2 then
    (s.1 ++ [.save (SyncCheckpoint.from_block_num block_num)],
      some (SyncCheckpoint.from_block_num block_num), true)
  else s

/-- Oracle environment of one `sync` run.  `stop i` is the result of
`stop_signal.try_recv()` at the top of iteration `i`; `head i` the result of
`get_last_finalized_block_num`; `events i b` the result of
`get_block_pay_in_events(b)` in iteration `i`; `behavior r ev attempt` the
outcome of the `attempt`-th `relay` call of relayer `r` for event `ev`. -/
structure SyncEnv (R : Type) where
  stop : Nat → Bool
  head : Nat → Except Unit (Option Nat)
  events : Nat → Nat → Except Unit (List PayIn)
  behavior : R → PayIn → Nat → Option RelayError

/-- Terminal states of a bounded `sync` run: `stopped` embeds the `Ok(())`
return on a received stop signal, `failed` the `Err(())` return, and
`fuelOut` a run truncated after `fuel` loop iterations. -/
inductive SyncResult
  | stopped
  | failed
  | fuelOut
deriving DecidableEq, Repr

/-- The initial `block_number_to_sync` computation at the top of
`Listener::sync`. -/
def initialBlockNumberToSync (checkpoint : Option SyncCheckpoint) (start_block : Nat) : Nat :=
  match checkpoint with
  | some cp =>
    if start_block > cp.block_num then start_block
    else if cp.just_block_num then cp.block_num + 1
    else cp.block_num
  | none => start_block

/-- The `'main: loop` of `Listener::sync`, bounded by `fuel` iterations.
Each iteration checks the stop signal, then queries the finalized head
(transient error or missing head: sleep one second and continue), computes
the fast-catch-up flag `fast` (`checked_sub` of the head and the block to
sync, strictly greater than 1), and if the head has reached the block to
sync fetches and processes the events of that block (transient fetch error:
sleep and continue the main loop; relay failure: return `Err(())`), finally
sleeping a second unless `fast`. -/
def syncLoop {R : Type} (env : SyncEnv R) (relay : Relay R) :
    Nat → Option SyncCheckpoint → Nat → Nat →
    List (Action R) × Option SyncCheckpoint × SyncResult
  | _, cp, _, 0 => ([], cp, .fuelOut)
  | iter, cp, block, fuel + 1 =>
    if env.stop iter then ([], cp, .stopped)
    else
      match env.head iter with
      | .error _ =>
        let rest := syncLoop env relay (iter + 1) cp block fuel
        (.sleepSec :: rest.1, rest.2)
      | .ok none =>
        let rest := syncLoop env relay (iter + 1) cp block fuel
        (.sleepSec :: rest.1, rest.2)
      | .ok (some h) =>
        let fast : Bool := block + 1 < h
        if block ≤ h then
          match env.events iter block with
          | .ok evs =>
            let s := processBlock relay env.behavior cp block evs
            if s.2.2 then
              let rest := syncLoop env relay (iter + 1) s.2.1 (block + 1) fuel
              (s.1 ++ (if fast then [] else [.sleepSec]) ++ rest.1, rest.2)
            else (s.1, s.2.1, .failed)
          | .error _ =>
            let rest := syncLoop env relay (iter + 1) cp block fuel
            (.sleepSec :: rest.1, rest.2)
        else
          let rest := syncLoop env relay (iter + 1) cp block fuel
          ((if fast then [] else [.sleepSec]) ++ rest.1, rest.2)

/-- Outcomes of the effectful sub-steps of `SubstrateRelayer::relay`
(substrate/relayer/src/lib.rs), in the order the Rust code performs them:
connecting an `OnlineClient` to the destination node, unsealing the signing
key from the key store, building the sr25519 signer, `sign_and_submit_then_watch`,
and `wait_for_finalized_success`.  Each flag is `true` when the step
succeeds. -/
structure SubstrateRelayEnv where
  connect : Bool
  readKey : Bool
  createSigner : Bool
  submit : Bool
  waitFinalized : Bool
deriving DecidableEq, Repr

/-- The error classification of `SubstrateRelayer::relay`: each failing step
is mapped to the `RelayError` the Rust code attaches to it (`map_err`), and
`none` embeds the final `Ok(())`.  The payload decoding (`_data[64..96]`)
and extrinsic construction are pure and cannot produce a `RelayError`; they
are not modelled. -/
def substrateRelayResult (env : SubstrateRelayEnv) : Option RelayError :=
  if !env.connect then some .TransportError
  else if !env.readKey then some .Other
  else if !env.createSigner then some .Other
  else if !env.submit then some .TransportError
  else if !env.waitFinalized then some .Other
  else none

/-- Modelled from the spec: the substrate event id type lives in
substrate/listener/src/primitives.rs, which is not present under src/; per
spec section 3 it is the pair `(block_num, event_index)`. -/
structure SubEventId where
  block_num : Nat
  event_idx : Nat
deriving DecidableEq, Repr

/-- A pallet event together with its id, `BlockEvent<T>` from
substrate/listener/src/rpc_client.rs, with the payload fields the fetcher
reads (`amount`, `nonce`, `resource_id`, `data`, `dest_chain`). -/
structure SubBlockEvent where
  id : SubEventId
  dest_chain : List Nat
  amount : Nat
  nonce : Nat
  resource_id : List Nat
  data : List Nat
deriving DecidableEq, Repr

/-- The `PayIn` value built by the substrate fetcher, with the substrate
event id type and `String` destination ids. -/
structure SubPayIn where
  id : SubEventId
  maybe_destination_id : Option String
  amount : Nat
  nonce : Nat
  resource_id : List Nat
  data : List Nat
deriving DecidableEq, Repr

/-- Lower-case hex digit, as produced by `hex::encode`. -/
def hexChar (d : Nat) : Char :=
  if d < 10 then Char.ofNat (48 + d) else Char.ofNat (87 + d)

/-- The `hex::encode` call on the `dest_chain` bytes. -/
def hexEncode (bytes : List Nat) : String :=
  String.mk (bytes.flatMap fun b => [hexChar (b / 16 % 16), hexChar (b % 16)])

/-- Conversion of one pallet event into a `PayIn`, the closure inside
`Fetcher::get_block_pay_in_events` (substrate/listener/src/fetcher.rs). -/
def subEventToPayIn (event : SubBlockEvent) : SubPayIn :=
  { id := event.id
    maybe_destination_id := some (hexEncode event.dest_chain)
    amount := event.amount
    nonce := event.nonce
    resource_id := event.resource_id
    data := event.data }

/-- `Fetcher::get_block_pay_in_events` of the substrate listener
(substrate/listener/src/fetcher.rs) after `connect_if_needed`:
`clientAvailable` is whether `self.client` is `Some` (a connection exists or
could be established), and `clientResult` the result the rpc client would
return for the block.  With a client the result is mapped event-wise;
without one the Rust code returns `Ok(vec![])`. -/
def fetcher_get_block_pay_in_events (clientAvailable : Bool)
    (clientResult : Except Unit (List SubBlockEvent)) :
    Except Unit (List SubPayIn) :=
  if clientAvailable then clientResult.map (List.map subEventToPayIn)
  else Except.ok []

/-- `Fetcher::get_last_finalized_block_num` of the substrate listener, same
conventions: with a client the block number is wrapped in `Ok(Some(..))`,
without one the Rust code returns `Err(())`. -/
def fetcher_get_last_finalized_block_num (clientAvailable : Bool)
    (clientResult : Except Unit Nat) : Except Unit (Option Nat) :=
  if clientAvailable then clientResult.map some
  else Except.error ()

/-- One listener entry of the configuration file, `Listener` in
bridge-core/src/config.rs (the opaque `config` subtree is not modelled). -/
structure ListenerCfg where
  listener_type : String
  id : String
  relayers : List String
  chain_id : Nat
deriving DecidableEq, Repr

/-- One relayer entry of the configuration file, `Relayer` in
bridge-core/src/config.rs. -/
structure RelayerCfg where
  relayer_type : String
  destination_id : String
  id : String
deriving DecidableEq, Repr

/-- `BridgeConfig` from bridge-core/src/config.rs. -/
structure BridgeConfig where
  listeners : List ListenerCfg
  relayers : List RelayerCfg
deriving DecidableEq, Repr

/-- `ConfigError` from bridge-core/src/config.rs.  Note that
`ListenerChainIdNotUnique` is declared by the Rust enum. -/
inductive ConfigError
  | ListenerIdNotUnique
  | ListenerChainIdNotUnique
  | ListenerRelayersEmpty
  | ListenerRelayerNotDefined
  | ListenerTypeUnknown
  | RelayerIdNotUnique
  | RelayerDestinationIdNotUnique
  | RelayerNotUsed
  | RelayerTypeUnknown
deriving DecidableEq, Repr

/-- The itertools `all_unique` check: no element occurs twice. -/
def all_unique : List String → Bool
  | [] => true
  | x :: xs => !(xs.contains x) && all_unique xs

namespace BridgeConfig

/-- `BridgeConfig::check_listener_id_uniqueness`. -/
def check_listener_id_uniqueness (c : BridgeConfig) : Except ConfigError Unit :=
  if !(all_unique (c.listeners.map (·.id))) then .error .ListenerIdNotUnique
  else .ok ()

/-- `BridgeConfig::check_listeners_relayer_arr_not_empty`. -/
def check_listeners_relayer_arr_not_empty (c : BridgeConfig) : Except ConfigError Unit :=
  if c.listeners.any (fun l => l.relayers.isEmpty) then .error .ListenerRelayersEmpty
  else .ok ()

/-- `BridgeConfig::check_relayer_id_uniqueness`. -/
def check_relayer_id_uniqueness (c : BridgeConfig) : Except ConfigError Unit :=
  if !(all_unique (c.relayers.map (·.id))) then .error .RelayerIdNotUnique
  else .ok ()

/-- `BridgeConfig::check_relayer_destination_id_uniqueness`. -/
def check_relayer_destination_id_uniqueness (c : BridgeConfig) : Except ConfigError Unit :=
  if !(all_unique (c.relayers.map (·.destination_id))) then
    .error .RelayerDestinationIdNotUnique
  else .ok ()

/-- `BridgeConfig::check_used_relayer_ids`: the relayer ids referenced by
listeners and the defined relayer ids are compared by set difference; a
reference to an undefined relayer is reported first, then an unused defined
relayer. -/
def check_used_relayer_ids (c : BridgeConfig) : Except ConfigError Unit :=
  let used := (c.listeners.map (·.relayers)).flatten
  let defined := c.relayers.map (·.id)
  if !(used.filter (fun r => !(defined.contains r))).isEmpty then
    .error .ListenerRelayerNotDefined
  else if !(defined.filter (fun r => !(used.contains r))).isEmpty then
    .error .RelayerNotUsed
  else .ok ()

/-- `BridgeConfig::check_listener_type`. -/
def check_listener_type (c : BridgeConfig) : Except ConfigError Unit :=
  if c.listeners.any (fun l => l.listener_type ≠ "ethereum" && l.listener_type ≠ "substrate")
  then .error .ListenerTypeUnknown
  else .ok ()

/-- `BridgeConfig::check_relayer_type`. -/
def check_relayer_type (c : BridgeConfig) : Except ConfigError Unit :=
  if c.relayers.any (fun r => r.relayer_type ≠ "ethereum" && r.relayer_type ≠ "substrate")
  then .error .RelayerTypeUnknown
  else .ok ()

/-- `BridgeConfig::validate`, sequencing the checks in the order of the Rust
code.  No chain-id uniqueness check appears in the sequence. -/
def validate (c : BridgeConfig) : Except ConfigError Unit := do
  c.check_listener_id_uniqueness
  c.check_listener_type
  c.check_listeners_relayer_arr_not_empty
  c.check_relayer_id_uniqueness
  c.check_relayer_type
  c.check_relayer_destination_id_uniqueness
  c.check_used_relayer_ids

end BridgeConfig

/-- A configuration whose two listeners share `chain_id = 0` while every
rule actually checked by `BridgeConfig::validate` holds. -/
def cfgDupChainId : BridgeConfig :=
  { listeners :=
      [ { listener_type := "substrate", id := "L1", relayers := ["R1"], chain_id := 0 },
        { listener_type := "substrate", id := "L2", relayers := ["R1"], chain_id := 0 } ],
    relayers :=
      [ { relayer_type := "substrate", destination_id := "D1", id := "R1" } ] }

/-- A sample deposit event of block 7 used to exhibit the no-connection
behaviour of the substrate fetcher. -/
def sampleSubEvent : SubBlockEvent :=
  { id := { block_num := 7, event_idx := 0 }, dest_chain := [0, 0, 0, 1],
    amount := 42, nonce := 3, resource_id := List.replicate 32 0, data := [1, 2, 3] }

/-- The deposit event of block 0 used by the concrete listener runs. -/
def evB0 : PayIn :=
  { id := { block_num := 0, tx_idx := 0, log_idx := 0 },
    maybe_destination_id := some "dest", amount := 5, nonce := 1,
    resource_id := List.replicate 32 0, data := List.replicate 20 0 }

/-- The deposit event `(block 9, tx 1, log 1)` used to exhibit the resume
filter. -/
def evResume : PayIn :=
  { id := { block_num := 9, tx_idx := 1, log_idx := 1 },
    maybe_destination_id := some "dest", amount := 5, nonce := 2,
    resource_id := List.replicate 32 0, data := List.replicate 20 0 }

/-- The deposit event `(block 1, tx 0, log 1)`, the first event of the
re-scanned block in the resume counterexample. -/
def ev101 : PayIn :=
  { id := { block_num := 1, tx_idx := 0, log_idx := 1 },
    maybe_destination_id := some "dest", amount := 5, nonce := 3,
    resource_id := List.replicate 32 0, data := List.replicate 20 0 }

/-- The deposit event `(block 1, tx 0, log 2)`, the event whose id equals
the stored event-partial checkpoint in the resume counterexample. -/
def ev102 : PayIn :=
  { id := { block_num := 1, tx_idx := 0, log_idx := 2 },
    maybe_destination_id := some "dest", amount := 5, nonce := 4,
    resource_id := List.replicate 32 0, data := List.replicate 20 0 }

/-- An events oracle serving exactly `evB0` in block 0 and nothing in any
other block. -/
def eventsOneBlock : Nat → Nat → Except Unit (List PayIn) :=
  fun _ b => if b = 0 then Except.ok [evB0] else Except.ok []

/-- Environment of a run in which every relay call succeeds: the head is
always block 0, block 0 holds exactly `evB0`, no stop signal arrives. -/
def envOk : SyncEnv String :=
  { stop := fun _ => false
    head := fun _ => Except.ok (some 0)
    events := eventsOneBlock
    behavior := fun _ _ _ => none }

/-- Environment identical to `envOk` except that every relay call fails with
the transient `TransportError`. -/
def envTransport : SyncEnv String :=
  { stop := fun _ => false
    head := fun _ => Except.ok (some 0)
    events := eventsOneBlock
    behavior := fun _ _ _ => some RelayError.TransportError }

theorem lt_from_log_id_iff (a b : LogId) :
    SyncCheckpoint.lt (SyncCheckpoint.from_log_id a) (SyncCheckpoint.from_log_id b) = true ↔
      LogId.ltLex a b := by
  simp only [SyncCheckpoint.lt, SyncCheckpoint.cmp, SyncCheckpoint.from_log_id,
    SyncCheckpoint.optCmp, LogId.ltLex, Nat.compare_eq_gt, Nat.compare_eq_lt,
    decide_eq_true_eq]
  split_ifs <;> simp_all <;> omega

theorem lt_from_log_id_false_of_leLex {a b : LogId} (h : LogId.leLex b a) :
    SyncCheckpoint.lt (SyncCheckpoint.from_log_id a) (SyncCheckpoint.from_log_id b) = false := by
  rw [← Bool.not_eq_true, lt_from_log_id_iff]
  intro hc
  rcases h with h | h
  · unfold LogId.ltLex at h hc
    rcases h with h | ⟨he, h | ⟨ht, hl⟩⟩ <;>
      rcases hc with hc | ⟨hce, hc | ⟨hct, hcl⟩⟩ <;> omega
  · subst h
    unfold LogId.ltLex at hc
    rcases hc with hc | ⟨_, hc | ⟨_, hc⟩⟩ <;> omega

theorem lt_of_block_lt (c1 c2 : SyncCheckpoint) (h : c1.block_num < c2.block_num) :
    SyncCheckpoint.lt c1 c2 = true := by
  simp only [SyncCheckpoint.lt, SyncCheckpoint.cmp, decide_eq_true_eq]
  rw [if_neg (by omega), if_pos h]

theorem leCompleteTop_of_block_lt {c1 c2 : SyncCheckpoint} (h : c1.block_num < c2.block_num) :
    SyncCheckpoint.leCompleteTop c1 c2 := by
  simp only [SyncCheckpoint.leCompleteTop, SyncCheckpoint.cmpCompleteTop]
  rw [if_neg (by omega), if_pos h]
  simp

theorem leCompleteTop_event_complete (a : LogId) (N : Nat) (h : a.block_num = N) :
    SyncCheckpoint.leCompleteTop (SyncCheckpoint.from_log_id a)
      (SyncCheckpoint.from_block_num N) := by
  subst h
  simp only [SyncCheckpoint.leCompleteTop, SyncCheckpoint.cmpCompleteTop,
    SyncCheckpoint.from_log_id, SyncCheckpoint.from_block_num, cmpNoneTop]
  rw [if_neg (by omega), if_neg (by omega)]
  simp

theorem leCompleteTop_from_log_id_of_ltLex {a b : LogId} (h : LogId.ltLex a b) :
    SyncCheckpoint.leCompleteTop (SyncCheckpoint.from_log_id a)
      (SyncCheckpoint.from_log_id b) := by
  simp only [SyncCheckpoint.leCompleteTop, SyncCheckpoint.cmpCompleteTop,
    SyncCheckpoint.from_log_id, cmpNoneTop, LogId.ltLex] at h ⊢
  simp only [Nat.compare_eq_gt, Nat.compare_eq_lt]
  split_ifs <;> simp_all <;> omega

theorem savesOf_append {R : Type} (l1 l2 : List (Action R)) :
    savesOf (l1 ++ l2) = savesOf l1 ++ savesOf l2 := by
  induction l1 with
  | nil => rfl
  | cons a rest ih => cases a <;> simp [savesOf, ih]

theorem callsFor_append {R : Type} (ev : PayIn) (l1 l2 : List (Action R)) :
    callsFor ev (l1 ++ l2) = callsFor ev l1 + callsFor ev l2 := by
  induction l1 with
  | nil => simp [callsFor]
  | cons a rest ih =>
    cases a with
    | relayCall r e =>
      simp only [List.cons_append, callsFor, List.append_eq, ih, Nat.add_assoc]
    | sleepSec => simp only [List.cons_append, callsFor, List.append_eq, ih]
    | save c => simp only [List.cons_append, callsFor, List.append_eq, ih]

theorem callsFor_pos_iff {R : Type} (ev : PayIn) (l : List (Action R)) :
    0 < callsFor ev l ↔ ∃ r, Action.relayCall r ev ∈ l := by
  induction l with
  | nil => simp [callsFor]
  | cons a rest ih =>
    cases a with
    | relayCall r e =>
      by_cases he : e = ev
      · subst he
        have hc : callsFor e (Action.relayCall r e :: rest) = 1 + callsFor e rest := by
          simp [callsFor]
        rw [hc]
        constructor
        · intro _
          exact ⟨r, List.mem_cons_self _ _⟩
        · intro _
          omega
      · simp only [callsFor, if_neg he, Nat.zero_add, ih, List.mem_cons]
        constructor
        · rintro ⟨r', hr'⟩
          exact ⟨r', Or.inr hr'⟩
        · rintro ⟨r', hr' | hr'⟩
          · cases hr'
            exact absurd rfl he
          · exact ⟨r', hr'⟩
    | sleepSec =>
      simp only [callsFor, ih, List.mem_cons]
      constructor
      · rintro ⟨r', hr'⟩
        exact ⟨r', Or.inr hr'⟩
      · rintro ⟨r', hr' | hr'⟩
        · cases hr'
        · exact ⟨r', hr'⟩
    | save c =>
      simp only [callsFor, ih, List.mem_cons]
      constructor
      · rintro ⟨r', hr'⟩
        exact ⟨r', Or.inr hr'⟩
      · rintro ⟨r', hr' | hr'⟩
        · cases hr'
        · exact ⟨r', hr'⟩

theorem callsFor_eq_zero_of_not_mem {R : Type} {ev : PayIn} {l : List (Action R)}
    (h : ∀ r, Action.relayCall r ev ∉ l) : callsFor ev l = 0 := by
  by_contra hne
  rcases (callsFor_pos_iff ev l).mp (Nat.pos_of_ne_zero hne) with ⟨r, hr⟩
  exact h r hr

theorem relayGo_savesOf {R : Type} (r : R) (ev : PayIn) (o : Nat → Option RelayError) :
    ∀ rem attempt, savesOf (relayGo r ev o attempt rem).1 = [] := by
  intro rem
  induction rem with
  | zero => intro attempt; rfl
  | succ n ih =>
    intro attempt
    cases h : o attempt with
    | none => simp [relayGo, h, savesOf]
    | some e => cases e <;> simp [relayGo, h, savesOf, ih]

theorem relayGo_call_mem {R : Type} {r r' : R} {ev e : PayIn} {o : Nat → Option RelayError} :
    ∀ {rem attempt}, Action.relayCall r' e ∈ (relayGo r ev o attempt rem).1 → e = ev := by
  intro rem
  induction rem with
  | zero => intro attempt h; cases h
  | succ n ih =>
    intro attempt
    cases h : o attempt with
    | none =>
      simp only [relayGo, h, List.mem_singleton]
      intro hm
      cases hm
      rfl
    | some err =>
      cases err <;> simp only [relayGo, h, List.mem_cons, List.mem_singleton] <;> intro hm
      · rcases hm with hm | hm | hm
        · cases hm; rfl
        · cases hm
        · exact ih hm
      · rcases hm with hm | hm
        · cases hm; rfl
        · exact ih hm
      · rcases hm with hm | hm
        · cases hm; rfl
        · cases hm
      · rcases hm with hm | hm
        · cases hm; rfl
        · cases hm

theorem relayGo_transport {R : Type} (r : R) (ev : PayIn) (o : Nat → Option RelayError)
    (H : ∀ n, o n = some RelayError.TransportError) :
    ∀ rem attempt, callsFor ev (relayGo r ev o attempt rem).1 = rem ∧
      (relayGo r ev o attempt rem).2 = false := by
  intro rem
  induction rem with
  | zero => intro attempt; exact ⟨rfl, rfl⟩
  | succ n ih =>
    intro attempt
    have h1 := (ih (attempt + 1)).1
    have h2 := (ih (attempt + 1)).2
    simp [relayGo, H attempt, callsFor, h1, h2, Nat.add_comm]

theorem processEventStep_eq {R : Type} (relay : Relay R)
    (behavior : R → PayIn → Nat → Option RelayError)
    (cp : Option SyncCheckpoint) (ev : PayIn) :
    processEventStep relay behavior cp ev = ([], true) ∨
    ∃ r, routeEvent relay ev = some r ∧
      (cp = none ∨ ∃ c, cp = some c ∧
        SyncCheckpoint.lt c (SyncCheckpoint.from_log_id ev.id) = true) ∧
      processEventStep relay behavior cp ev = relayAttempts r ev (behavior r ev) := by
  unfold processEventStep
  cases hr : routeEvent relay ev with
  | none => exact Or.inl rfl
  | some r =>
    cases cp with
    | none => exact Or.inr ⟨r, rfl, Or.inl rfl, rfl⟩
    | some c =>
      by_cases hf : SyncCheckpoint.lt c (SyncCheckpoint.from_log_id ev.id) = true
      · refine Or.inr ⟨r, rfl, Or.inr ⟨c, rfl, hf⟩, ?_⟩
        show (if SyncCheckpoint.lt c (SyncCheckpoint.from_log_id ev.id) = true then
          relayAttempts r ev (behavior r ev) else ([], true)) = relayAttempts r ev (behavior r ev)
        rw [if_pos hf]
      · refine Or.inl ?_
        show (if SyncCheckpoint.lt c (SyncCheckpoint.from_log_id ev.id) = true then
          relayAttempts r ev (behavior r ev) else ([], true)) = ([], true)
        rw [if_neg hf]

theorem processEventStep_savesOf {R : Type} (relay : Relay R)
    (behavior : R → PayIn → Nat → Option RelayError)
    (cp : Option SyncCheckpoint) (ev : PayIn) :
    savesOf (processEventStep relay behavior cp ev).1 = [] := by
  rcases processEventStep_eq relay behavior cp ev with he | ⟨r, _, _, he⟩ <;> rw [he]
  · rfl
  · exact relayGo_savesOf r ev (behavior r ev) 10 1

theorem processEventStep_call_mem {R : Type} {relay : Relay R}
    {behavior : R → PayIn → Nat → Option RelayError}
    {cp : Option SyncCheckpoint} {ev e : PayIn} {r' : R}
    (h : Action.relayCall r' e ∈ (processEventStep relay behavior cp ev).1) : e = ev := by
  rcases processEventStep_eq relay behavior cp ev with he | ⟨r, _, _, he⟩ <;> rw [he] at h
  · cases h
  · exact relayGo_call_mem h

theorem processEvent_of_step_true {R : Type} {relay : Relay R}
    {behavior : R → PayIn → Nat → Option RelayError}
    {cp : Option SyncCheckpoint} {ev : PayIn}
    (h : (processEventStep relay behavior cp ev).2 = true) :
    processEvent relay behavior cp ev =
      ((processEventStep relay behavior cp ev).1 ++
        [Action.save (SyncCheckpoint.from_log_id ev.id)],
        some (SyncCheckpoint.from_log_id ev.id), true) := by
  simp only [processEvent]
  rw [if_pos h]

theorem processEvent_of_step_false {R : Type} {relay : Relay R}
    {behavior : R → PayIn → Nat → Option RelayError}
    {cp : Option SyncCheckpoint} {ev : PayIn}
    (h : (processEventStep relay behavior cp ev).2 = false) :
    processEvent relay behavior cp ev =
      ((processEventStep relay behavior cp ev).1, cp, false) := by
  simp only [processEvent]
  rw [if_neg (by simp [h])]

theorem processEvent_ok_savesOf {R : Type} {relay : Relay R}
    {behavior : R → PayIn → Nat → Option RelayError}
    {cp : Option SyncCheckpoint} {ev : PayIn}
    (h : (processEvent relay behavior cp ev).2.2 = true) :
    savesOf (processEvent relay behavior cp ev).1 =
      [SyncCheckpoint.from_log_id ev.id] ∧
    (processEvent relay behavior cp ev).2.1 = some (SyncCheckpoint.from_log_id ev.id) := by
  by_cases hs : (processEventStep relay behavior cp ev).2 = true
  · rw [processEvent_of_step_true hs]
    simp [savesOf_append, processEventStep_savesOf, savesOf]
  · rw [Bool.not_eq_true] at hs
    rw [processEvent_of_step_false hs] at h
    cases h

theorem processEvent_call_mem {R : Type} {relay : Relay R}
    {behavior : R → PayIn → Nat → Option RelayError}
    {cp : Option SyncCheckpoint} {ev e : PayIn} {r' : R}
    (h : Action.relayCall r' e ∈ (processEvent relay behavior cp ev).1) : e = ev := by
  by_cases hs : (processEventStep relay behavior cp ev).2 = true
  · rw [processEvent_of_step_true hs] at h
    rcases List.mem_append.mp h with h | h
    · exact processEventStep_call_mem h
    · simp at h
  · rw [Bool.not_eq_true] at hs
    rw [processEvent_of_step_false hs] at h
    exact processEventStep_call_mem h

theorem processEvent_fail_savesOf {R : Type} {relay : Relay R}
    {behavior : R → PayIn → Nat → Option RelayError}
    {cp : Option SyncCheckpoint} {ev : PayIn}
    (h : (processEvent relay behavior cp ev).2.2 = false) :
    savesOf (processEvent relay behavior cp ev).1 = [] ∧
    (processEvent relay behavior cp ev).2.1 = cp := by
  by_cases hs : (processEventStep relay behavior cp ev).2 = true
  · rw [processEvent_of_step_true hs] at h
    cases h
  · rw [Bool.not_eq_true] at hs
    rw [processEvent_of_step_false hs]
    exact ⟨processEventStep_savesOf relay behavior cp ev, rfl⟩

theorem processEvent_ok_callsFor_zero {R : Type} {relay : Relay R}
    {behavior : R → PayIn → Nat → Option RelayError}
    {cp : Option SyncCheckpoint} {e ev : PayIn}
    (Hb : ∀ r a, behavior r ev a = some RelayError.TransportError)
    (h : (processEvent relay behavior cp e).2.2 = true) :
    callsFor ev (processEvent relay behavior cp e).1 = 0 := by
  apply callsFor_eq_zero_of_not_mem
  intro r hmem
  have he : ev = e := processEvent_call_mem hmem
  subst he
  rcases processEventStep_eq relay behavior cp ev with hstep | ⟨r0, hr0, hcp, hstep⟩
  · rw [processEvent_of_step_true (by rw [hstep])] at hmem
    rw [hstep] at hmem
    simp at hmem
  · have hgo := relayGo_transport r0 ev (behavior r0 ev) (fun n => Hb r0 n) 10 1
    have h2 : (processEventStep relay behavior cp ev).2 = false := by
      rw [hstep]
      exact hgo.2
    rw [processEvent_of_step_false h2] at h
    cases h

theorem processEvent_transport_of_call {R : Type} {relay : Relay R}
    {behavior : R → PayIn → Nat → Option RelayError}
    {cp : Option SyncCheckpoint} {ev : PayIn} {r' : R}
    (Hb : ∀ r a, behavior r ev a = some RelayError.TransportError)
    (hmem : Action.relayCall r' ev ∈ (processEvent relay behavior cp ev).1) :
    (processEvent relay behavior cp ev).2.2 = false ∧
    callsFor ev (processEvent relay behavior cp ev).1 = 10 ∧
    savesOf (processEvent relay behavior cp ev).1 = [] := by
  rcases processEventStep_eq relay behavior cp ev with hstep | ⟨r0, hr0, hcp, hstep⟩
  · rw [processEvent_of_step_true (by rw [hstep])] at hmem
    rw [hstep] at hmem
    simp at hmem
  · have hgo := relayGo_transport r0 ev (behavior r0 ev) (fun n => Hb r0 n) 10 1
    have h2 : (processEventStep relay behavior cp ev).2 = false := by
      rw [hstep]
      exact hgo.2
    rw [processEvent_of_step_false h2]
    refine ⟨rfl, ?_, ?_⟩
    · rw [hstep]
      exact hgo.1
    · exact processEventStep_savesOf relay behavior cp ev

theorem processEvents_call_mem {R : Type} {relay : Relay R}
    {behavior : R → PayIn → Nat → Option RelayError}
    {cp : Option SyncCheckpoint} {evs : List PayIn} {e : PayIn} {r' : R}
    (h : Action.relayCall r' e ∈ (processEvents relay behavior cp evs).1) : e ∈ evs := by
  induction evs generalizing cp with
  | nil => cases h
  | cons ev rest ih =>
    simp only [processEvents] at h
    by_cases hs : (processEvent relay behavior cp ev).2.2 = true
    · rw [if_pos hs] at h
      rcases List.mem_append.mp h with h | h
      · rw [processEvent_call_mem h]
        exact List.mem_cons_self _ _
      · exact List.mem_cons_of_mem _ (ih h)
    · rw [if_neg hs] at h
      rw [processEvent_call_mem h]
      exact List.mem_cons_self _ _

theorem processEvents_ok_savesOf {R : Type} {relay : Relay R}
    {behavior : R → PayIn → Nat → Option RelayError}
    {cp : Option SyncCheckpoint} {evs : List PayIn}
    (h : (processEvents relay behavior cp evs).2.2 = true) :
    savesOf (processEvents relay behavior cp evs).1 =
      evs.map (fun e => SyncCheckpoint.from_log_id e.id) := by
  induction evs generalizing cp with
  | nil => rfl
  | cons ev rest ih =>
    simp only [processEvents] at h ⊢
    by_cases hs : (processEvent relay behavior cp ev).2.2 = true
    · rw [if_pos hs] at h ⊢
      have h2 : (processEvents relay behavior (processEvent relay behavior cp ev).2.1 rest).2.2 = true := h
      rw [savesOf_append, (processEvent_ok_savesOf hs).1, ih h2, List.map_cons]
      rfl
    · rw [if_neg hs] at h
      exact absurd h hs

theorem processEvents_savesOf_take {R : Type} (relay : Relay R)
    (behavior : R → PayIn → Nat → Option RelayError)
    (cp : Option SyncCheckpoint) (evs : List PayIn) :
    ∃ n, savesOf (processEvents relay behavior cp evs).1 =
      (evs.take n).map (fun e => SyncCheckpoint.from_log_id e.id) := by
  induction evs generalizing cp with
  | nil => exact ⟨0, rfl⟩
  | cons ev rest ih =>
    simp only [processEvents]
    by_cases hs : (processEvent relay behavior cp ev).2.2 = true
    · rw [if_pos hs]
      rcases ih ((processEvent relay behavior cp ev).2.1) with ⟨n, hn⟩
      refine ⟨n + 1, ?_⟩
      rw [savesOf_append, (processEvent_ok_savesOf hs).1, hn, List.take_succ_cons,
        List.map_cons]
      rfl
    · rw [if_neg hs]
      rw [Bool.not_eq_true] at hs
      exact ⟨0, (processEvent_fail_savesOf hs).1⟩

theorem processEvents_transport_of_call {R : Type} {relay : Relay R}
    {behavior : R → PayIn → Nat → Option RelayError}
    {cp : Option SyncCheckpoint} {evs : List PayIn} {ev : PayIn} {r₀ : R}
    (Hb : ∀ r a, behavior r ev a = some RelayError.TransportError)
    (Hsort : evs.Pairwise (fun x y => LogId.ltLex x.id y.id))
    (Hmem : Action.relayCall r₀ ev ∈ (processEvents relay behavior cp evs).1) :
    (processEvents relay behavior cp evs).2.2 = false ∧
    callsFor ev (processEvents relay behavior cp evs).1 = 10 ∧
    ∀ c ∈ savesOf (processEvents relay behavior cp evs).1,
      SyncCheckpoint.lt c (SyncCheckpoint.from_log_id ev.id) = true := by
  induction evs generalizing cp with
  | nil => cases Hmem
  | cons e rest ih =>
    simp only [processEvents] at Hmem ⊢
    by_cases hs : (processEvent relay behavior cp e).2.2 = true
    · rw [if_pos hs] at Hmem ⊢
      rcases List.mem_append.mp Hmem with hm | hm

      · have heq : ev = e := processEvent_call_mem hm
        subst heq
        rcases processEvent_transport_of_call Hb hm with ⟨hfail, _, _⟩
        rw [hs] at hfail
        cases hfail
      · have ih' := ih Hsort.of_cons hm
        refine ⟨ih'.1, ?_, ?_⟩
        · rw [callsFor_append, processEvent_ok_callsFor_zero Hb hs, ih'.2.1]
        · rw [savesOf_append, (processEvent_ok_savesOf hs).1]
          intro c hc
          rcases List.mem_append.mp hc with hc | hc
          · rcases List.mem_singleton.mp hc with rfl
            have hev : ev ∈ rest := processEvents_call_mem hm
            have hlt : LogId.ltLex e.id ev.id :=
              (List.pairwise_cons.mp Hsort).1 ev hev
            exact (lt_from_log_id_iff _ _).mpr hlt
          · exact ih'.2.2 c hc
    · rw [if_neg hs] at Hmem ⊢
      have heq : ev = e := processEvent_call_mem Hmem
      subst heq
      rcases processEvent_transport_of_call Hb Hmem with ⟨h1, h2, h3⟩
      refine ⟨h1, h2, ?_⟩
      rw [h3]
      intro c hc
      cases hc

theorem processBlock_snd {R : Type} (relay : Relay R)
    (behavior : R → PayIn → Nat → Option RelayError)
    (cp : Option SyncCheckpoint) (b : Nat) (evs : List PayIn) :
    (processBlock relay behavior cp b evs).2.2 =
      (processEvents relay behavior cp evs).2.2 := by
  simp only [processBlock]
  by_cases hs : (processEvents relay behavior cp evs).2.2 = true
  · rw [if_pos hs, hs]
  · rw [if_neg hs]

theorem processBlock_of_events_true {R : Type} {relay : Relay R}
    {behavior : R → PayIn → Nat → Option RelayError}
    {cp : Option SyncCheckpoint} {b : Nat} {evs : List PayIn}
    (h : (processEvents relay behavior cp evs).2.2 = true) :
    processBlock relay behavior cp b evs =
      ((processEvents relay behavior cp evs).1 ++
        [Action.save (SyncCheckpoint.from_block_num b)],
        some (SyncCheckpoint.from_block_num b), true) := by
  simp only [processBlock]
  rw [if_pos h]

theorem processBlock_of_events_false {R : Type} {relay : Relay R}
    {behavior : R → PayIn → Nat → Option RelayError}
    {cp : Option SyncCheckpoint} {b : Nat} {evs : List PayIn}
    (h : (processEvents relay behavior cp evs).2.2 = false) :
    processBlock relay behavior cp b evs = processEvents relay behavior cp evs := by
  simp only [processBlock]
  rw [if_neg (by simp [h])]

theorem mem_pause {R : Type} {a : Action R} {c : Bool}
    (h : a ∈ (if c then ([] : List (Action R)) else [.sleepSec])) : a = .sleepSec := by
  cases c <;> simp_all

theorem savesOf_pause {R : Type} (c : Bool) :
    savesOf (if c then ([] : List (Action R)) else [.sleepSec]) = [] := by
  cases c <;> simp [savesOf]

theorem callsFor_pause {R : Type} (ev : PayIn) (c : Bool) :
    callsFor ev (if c then ([] : List (Action R)) else [.sleepSec]) = 0 := by
  cases c <;> simp [callsFor]

theorem syncLoop_stop {R : Type} {env : SyncEnv R} {relay : Relay R}
    {iter : Nat} {cp : Option SyncCheckpoint} {b n : Nat}
    (hstop : env.stop iter = true) :
    syncLoop env relay iter cp b (n + 1) = ([], cp, SyncResult.stopped) := by
  simp [syncLoop, hstop]

theorem syncLoop_head_error {R : Type} {env : SyncEnv R} {relay : Relay R}
    {iter : Nat} {cp : Option SyncCheckpoint} {b n : Nat} {u : Unit}
    (hstop : env.stop iter = false) (hh : env.head iter = Except.error u) :
    syncLoop env relay iter cp b (n + 1) =
      (Action.sleepSec :: (syncLoop env relay (iter + 1) cp b n).1,
        (syncLoop env relay (iter + 1) cp b n).2) := by
  simp [syncLoop, hstop, hh]

theorem syncLoop_head_none {R : Type} {env : SyncEnv R} {relay : Relay R}
    {iter : Nat} {cp : Option SyncCheckpoint} {b n : Nat}
    (hstop : env.stop iter = false) (hh : env.head iter = Except.ok none) :
    syncLoop env relay iter cp b (n + 1) =
      (Action.sleepSec :: (syncLoop env relay (iter + 1) cp b n).1,
        (syncLoop env relay (iter + 1) cp b n).2) := by
  simp [syncLoop, hstop, hh]

theorem syncLoop_wait {R : Type} {env : SyncEnv R} {relay : Relay R}
    {iter : Nat} {cp : Option SyncCheckpoint} {b n hd : Nat}
    (hstop : env.stop iter = false) (hh : env.head iter = Except.ok (some hd))
    (hb : ¬ b ≤ hd) :
    syncLoop env relay iter cp b (n + 1) =
      (Action.sleepSec :: (syncLoop env relay (iter + 1) cp b n).1,
        (syncLoop env relay (iter + 1) cp b n).2) := by
  have hf : ¬ (b + 1 < hd) := by omega
  simp [syncLoop, hstop, hh, hb, hf]

theorem syncLoop_events_error {R : Type} {env : SyncEnv R} {relay : Relay R}
    {iter : Nat} {cp : Option SyncCheckpoint} {b n hd : Nat} {u : Unit}
    (hstop : env.stop iter = false) (hh : env.head iter = Except.ok (some hd))
    (hb : b ≤ hd) (hev : env.events iter b = Except.error u) :
    syncLoop env relay iter cp b (n + 1) =
      (Action.sleepSec :: (syncLoop env relay (iter + 1) cp b n).1,
        (syncLoop env relay (iter + 1) cp b n).2) := by
  simp [syncLoop, hstop, hh, hb, hev]

theorem syncLoop_process_ok {R : Type} {env : SyncEnv R} {relay : Relay R}
    {iter : Nat} {cp : Option SyncCheckpoint} {b n hd : Nat} {evs : List PayIn}
    (hstop : env.stop iter = false) (hh : env.head iter = Except.ok (some hd))
    (hb : b ≤ hd) (hev : env.events iter b = Except.ok evs)
    (hpb : (processBlock relay env.behavior cp b evs).2.2 = true) :
    syncLoop env relay iter cp b (n + 1) =
      ((processBlock relay env.behavior cp b evs).1 ++
        (if (b + 1 < hd : Bool) then [] else [Action.sleepSec]) ++
        (syncLoop env relay (iter + 1)
          (processBlock relay env.behavior cp b evs).2.1 (b + 1) n).1,
        (syncLoop env relay (iter + 1)
          (processBlock relay env.behavior cp b evs).2.1 (b + 1) n).2) := by
  simp only [syncLoop, hstop, Bool.false_eq_true, if_false, hh, hb, if_true, hev, hpb,
    List.append_assoc]

theorem syncLoop_process_fail {R : Type} {env : SyncEnv R} {relay : Relay R}
    {iter : Nat} {cp : Option SyncCheckpoint} {b n hd : Nat} {evs : List PayIn}
    (hstop : env.stop iter = false) (hh : env.head iter = Except.ok (some hd))
    (hb : b ≤ hd) (hev : env.events iter b = Except.ok evs)
    (hpb : (processBlock relay env.behavior cp b evs).2.2 = false) :
    syncLoop env relay iter cp b (n + 1) =
      ((processBlock relay env.behavior cp b evs).1,
        (processBlock relay env.behavior cp b evs).2.1, SyncResult.failed) := by
  simp [syncLoop, hstop, hh, hb, hev, hpb]

theorem syncLoop_call_block_ge {R : Type} {env : SyncEnv R} {relay : Relay R}
    (He : ∀ i bn evs, env.events i bn = Except.ok evs → ∀ e ∈ evs, e.id.block_num = bn) :
    ∀ fuel iter cp b {e : PayIn} {r' : R},
      Action.relayCall r' e ∈ (syncLoop env relay iter cp b fuel).1 →
      b ≤ e.id.block_num := by
  intro fuel
  induction fuel with
  | zero =>
    intro iter cp b e r' h
    cases h
  | succ n ih =>
    intro iter cp b e r' h
    by_cases hstop : env.stop iter = true
    · rw [syncLoop_stop hstop] at h
      cases h
    · rw [Bool.not_eq_true] at hstop
      cases hh : env.head iter with
      | error u =>
        rw [syncLoop_head_error hstop hh] at h
        rcases List.mem_cons.mp h with h | h
        · cases h
        · exact ih _ _ _ h
      | ok oh =>
        cases oh with
        | none =>
          rw [syncLoop_head_none hstop hh] at h
          rcases List.mem_cons.mp h with h | h
          · cases h
          · exact ih _ _ _ h
        | some hd =>
          by_cases hb : b ≤ hd
          · cases hev : env.events iter b with
            | ok evs =>
              by_cases hpb : (processBlock relay env.behavior cp b evs).2.2 = true
              · rw [syncLoop_process_ok hstop hh hb hev hpb] at h
                rcases List.mem_append.mp h with h | h
                · rcases List.mem_append.mp h with h | h
                  · have hpe : (processEvents relay env.behavior cp evs).2.2 = true := by
                      rw [← processBlock_snd relay env.behavior cp b evs]
                      exact hpb
                    rw [processBlock_of_events_true hpe] at h
                    rcases List.mem_append.mp h with h | h
                    · have hm : e ∈ evs := processEvents_call_mem h
                      rw [He iter b evs hev e hm]
                    · simp at h
                  · cases mem_pause h
                · exact Nat.le_of_succ_le (ih _ _ _ h)
              · rw [Bool.not_eq_true] at hpb
                rw [syncLoop_process_fail hstop hh hb hev hpb] at h
                have hpe : (processEvents relay env.behavior cp evs).2.2 = false := by
                  rw [← processBlock_snd relay env.behavior cp b evs]
                  exact hpb
                rw [processBlock_of_events_false hpe] at h
                have hm : e ∈ evs := processEvents_call_mem h
                rw [He iter b evs hev e hm]
            | error u =>
              rw [syncLoop_events_error hstop hh hb hev] at h
              rcases List.mem_cons.mp h with h | h
              · cases h
              · exact ih _ _ _ h
          · rw [syncLoop_wait hstop hh hb] at h
            rcases List.mem_cons.mp h with h | h
            · cases h
            · exact ih _ _ _ h

theorem processEvents_ok_callsFor_zero {R : Type} {relay : Relay R}
    {behavior : R → PayIn → Nat → Option RelayError}
    {cp : Option SyncCheckpoint} {evs : List PayIn} {ev : PayIn}
    (Hb : ∀ r a, behavior r ev a = some RelayError.TransportError)
    (Hsort : evs.Pairwise (fun x y => LogId.ltLex x.id y.id))
    (h : (processEvents relay behavior cp evs).2.2 = true) :
    callsFor ev (processEvents relay behavior cp evs).1 = 0 := by
  by_contra hne
  rcases (callsFor_pos_iff ev _).mp (Nat.pos_of_ne_zero hne) with ⟨r, hr⟩
  rcases processEvents_transport_of_call Hb Hsort hr with ⟨hf, _, _⟩
  rw [h] at hf
  cases hf

theorem syncLoop_transport_of_call {R : Type} {env : SyncEnv R} {relay : Relay R}
    {ev : PayIn} {r₀ : R}
    (He : ∀ i bn evs, env.events i bn = Except.ok evs → ∀ e ∈ evs, e.id.block_num = bn)
    (Hs : ∀ i bn evs, env.events i bn = Except.ok evs →
      evs.Pairwise (fun x y => LogId.ltLex x.id y.id))
    (Hb : ∀ r a, env.behavior r ev a = some RelayError.TransportError) :
    ∀ fuel iter cp b,
      Action.relayCall r₀ ev ∈ (syncLoop env relay iter cp b fuel).1 →
      (syncLoop env relay iter cp b fuel).2.2 = SyncResult.failed ∧
      callsFor ev (syncLoop env relay iter cp b fuel).1 = 10 ∧
      ∀ c ∈ savesOf (syncLoop env relay iter cp b fuel).1,
        SyncCheckpoint.lt c (SyncCheckpoint.from_log_id ev.id) = true := by
  intro fuel
  induction fuel with
  | zero =>
    intro iter cp b h
    cases h
  | succ n ih =>
    intro iter cp b h
    by_cases hstop : env.stop iter = true
    · rw [syncLoop_stop hstop] at h
      cases h
    · rw [Bool.not_eq_true] at hstop
      cases hh : env.head iter with
      | error u =>
        rw [syncLoop_head_error hstop hh] at h ⊢
        rcases List.mem_cons.mp h with hm | hm
        · cases hm
        · have ihh := ih _ _ _ hm
          refine ⟨ihh.1, ?_, ?_⟩
          · simpa [callsFor] using ihh.2.1
          · simpa [savesOf] using ihh.2.2
      | ok oh =>
        cases oh with
        | none =>
          rw [syncLoop_head_none hstop hh] at h ⊢
          rcases List.mem_cons.mp h with hm | hm
          · cases hm
          · have ihh := ih _ _ _ hm
            refine ⟨ihh.1, ?_, ?_⟩
            · simpa [callsFor] using ihh.2.1
            · simpa [savesOf] using ihh.2.2
        | some hd =>
          by_cases hb : b ≤ hd
          · cases hev : env.events iter b with
            | ok evs =>
              by_cases hpb : (processBlock relay env.behavior cp b evs).2.2 = true
              · rw [syncLoop_process_ok hstop hh hb hev hpb] at h ⊢
                have hpe : (processEvents relay env.behavior cp evs).2.2 = true := by
                  rw [← processBlock_snd relay env.behavior cp b evs]
                  exact hpb
                have hm : Action.relayCall r₀ ev ∈
                    (syncLoop env relay (iter + 1)
                      (processBlock relay env.behavior cp b evs).2.1 (b + 1) n).1 := by
                  rcases List.mem_append.mp h with hm | hm
                  · exfalso
                    rcases List.mem_append.mp hm with hm | hm
                    · rw [processBlock_of_events_true hpe] at hm
                      rcases List.mem_append.mp hm with hm | hm
                      · rcases processEvents_transport_of_call Hb (Hs iter b evs hev) hm
                          with ⟨hf, _, _⟩
                        rw [hpe] at hf
                        cases hf
                      · simp at hm
                    · cases mem_pause hm
                  · exact hm
                have ihh := ih _ _ _ hm
                have hblk : b + 1 ≤ ev.id.block_num :=
                  syncLoop_call_block_ge He n (iter + 1) _ (b + 1) hm
                have hA : callsFor ev (processBlock relay env.behavior cp b evs).1 = 0 := by
                  rw [processBlock_of_events_true hpe, callsFor_append,
                    processEvents_ok_callsFor_zero Hb (Hs iter b evs hev) hpe]
                  simp [callsFor]
                have hAs : savesOf (processBlock relay env.behavior cp b evs).1 =
                    evs.map (fun e => SyncCheckpoint.from_log_id e.id) ++
                      [SyncCheckpoint.from_block_num b] := by
                  rw [processBlock_of_events_true hpe, savesOf_append,
                    processEvents_ok_savesOf hpe]
                  simp [savesOf]
                refine ⟨ihh.1, ?_, ?_⟩
                · rw [callsFor_append, callsFor_append, hA, callsFor_pause, ihh.2.1]
                · intro c hc
                  rw [savesOf_append, savesOf_append, hAs, savesOf_pause] at hc
                  simp only [List.append_nil, List.mem_append] at hc
                  rcases hc with (hc | hc) | hc
                  · rcases List.mem_map.mp hc with ⟨e, hmem, rfl⟩
                    apply lt_of_block_lt
                    have : e.id.block_num = b := He iter b evs hev e hmem
                    simp only [SyncCheckpoint.from_log_id, this]
                    omega
                  · rcases List.mem_singleton.mp hc with rfl
                    apply lt_of_block_lt
                    simp only [SyncCheckpoint.from_block_num, SyncCheckpoint.from_log_id]
                    omega
                  · exact ihh.2.2 c hc
              · rw [Bool.not_eq_true] at hpb
                rw [syncLoop_process_fail hstop hh hb hev hpb] at h ⊢
                have hpe : (processEvents relay env.behavior cp evs).2.2 = false := by
                  rw [← processBlock_snd relay env.behavior cp b evs]
                  exact hpb
                rw [processBlock_of_events_false hpe] at h ⊢
                rcases processEvents_transport_of_call Hb (Hs iter b evs hev) h
                  with ⟨_, h2, h3⟩
                exact ⟨rfl, h2, h3⟩
            | error u =>
              rw [syncLoop_events_error hstop hh hb hev] at h ⊢
              rcases List.mem_cons.mp h with hm | hm
              · cases hm
              · have ihh := ih _ _ _ hm
                refine ⟨ihh.1, ?_, ?_⟩
                · simpa [callsFor] using ihh.2.1
                · simpa [savesOf] using ihh.2.2
          · rw [syncLoop_wait hstop hh hb] at h ⊢
            rcases List.mem_cons.mp h with hm | hm
            · cases hm
            · have ihh := ih _ _ _ hm
              refine ⟨ihh.1, ?_, ?_⟩
              · simpa [callsFor] using ihh.2.1
              · simpa [savesOf] using ihh.2.2

theorem syncLoop_saves_monotone {R : Type} {env : SyncEnv R} {relay : Relay R}
    (He : ∀ i bn evs, env.events i bn = Except.ok evs → ∀ e ∈ evs, e.id.block_num = bn)
    (Hs : ∀ i bn evs, env.events i bn = Except.ok evs →
      evs.Pairwise (fun x y => LogId.ltLex x.id y.id)) :
    ∀ fuel iter cp b,
      List.Pairwise SyncCheckpoint.leCompleteTop
        (savesOf (syncLoop env relay iter cp b fuel).1) ∧
      ∀ c ∈ savesOf (syncLoop env relay iter cp b fuel).1, b ≤ c.block_num := by
  intro fuel
  induction fuel with
  | zero =>
    intro iter cp b
    exact ⟨List.Pairwise.nil, fun c hc => by cases hc⟩
  | succ n ih =>
    intro iter cp b
    by_cases hstop : env.stop iter = true
    · rw [syncLoop_stop hstop]
      exact ⟨List.Pairwise.nil, fun c hc => by cases hc⟩
    · rw [Bool.not_eq_true] at hstop
      cases hh : env.head iter with
      | error u =>
        rw [syncLoop_head_error hstop hh]
        have ihh := ih (iter + 1) cp b
        exact ⟨by simpa [savesOf] using ihh.1, by simpa [savesOf] using ihh.2⟩
      | ok oh =>
        cases oh with
        | none =>
          rw [syncLoop_head_none hstop hh]
          have ihh := ih (iter + 1) cp b
          exact ⟨by simpa [savesOf] using ihh.1, by simpa [savesOf] using ihh.2⟩
        | some hd =>
          by_cases hb : b ≤ hd
          · cases hev : env.events iter b with
            | ok evs =>
              by_cases hpb : (processBlock relay env.behavior cp b evs).2.2 = true
              · rw [syncLoop_process_ok hstop hh hb hev hpb]
                have hpe : (processEvents relay env.behavior cp evs).2.2 = true := by
                  rw [← processBlock_snd relay env.behavior cp b evs]
                  exact hpb
                have hAs : savesOf (processBlock relay env.behavior cp b evs).1 =
                    evs.map (fun e => SyncCheckpoint.from_log_id e.id) ++
                      [SyncCheckpoint.from_block_num b] := by
                  rw [processBlock_of_events_true hpe, savesOf_append,
                    processEvents_ok_savesOf hpe]
                  simp [savesOf]
                have hblockA : ∀ x ∈ savesOf (processBlock relay env.behavior cp b evs).1,
                    x.block_num = b := by
                  rw [hAs]
                  intro x hx
                  rcases List.mem_append.mp hx with hx | hx
                  · rcases List.mem_map.mp hx with ⟨e, he, rfl⟩
                    exact He iter b evs hev e he
                  · rcases List.mem_singleton.mp hx with rfl
                    rfl
                have hpairA : List.Pairwise SyncCheckpoint.leCompleteTop
                    (savesOf (processBlock relay env.behavior cp b evs).1) := by
                  rw [hAs]
                  rw [List.pairwise_append]
                  refine ⟨?_, List.pairwise_singleton _ _, ?_⟩
                  · exact List.Pairwise.map _
                      (fun a c hac => leCompleteTop_from_log_id_of_ltLex hac)
                      (Hs iter b evs hev)
                  · intro x hx y hy
                    rcases List.mem_singleton.mp hy with rfl
                    rcases List.mem_map.mp hx with ⟨e, he, rfl⟩
                    exact leCompleteTop_event_complete e.id b (He iter b evs hev e he)
                have ihh := ih (iter + 1)
                  ((processBlock relay env.behavior cp b evs).2.1) (b + 1)
                constructor
                · rw [savesOf_append, savesOf_append, savesOf_pause, List.append_nil,
                    List.pairwise_append]
                  refine ⟨hpairA, ihh.1, ?_⟩
                  intro x hx y hy
                  have hxb : x.block_num = b := hblockA x hx
                  have hyb : b + 1 ≤ y.block_num := ihh.2 y hy
                  exact leCompleteTop_of_block_lt (by omega)
                · intro c hc
                  rw [savesOf_append, savesOf_append, savesOf_pause, List.append_nil] at hc
                  rcases List.mem_append.mp hc with hc | hc
                  · rw [hblockA c hc]
                  · have := ihh.2 c hc
                    omega
              · rw [Bool.not_eq_true] at hpb
                rw [syncLoop_process_fail hstop hh hb hev hpb]
                have hpe : (processEvents relay env.behavior cp evs).2.2 = false := by
                  rw [← processBlock_snd relay env.behavior cp b evs]
                  exact hpb
                rw [processBlock_of_events_false hpe]
                rcases processEvents_savesOf_take relay env.behavior cp evs with ⟨m, hm⟩
                constructor
                · rw [hm]
                  exact List.Pairwise.map _
                    (fun a c hac => leCompleteTop_from_log_id_of_ltLex hac)
                    ((Hs iter b evs hev).sublist (List.take_sublist m evs))
                · intro c hc
                  rw [hm] at hc
                  rcases List.mem_map.mp hc with ⟨e, he, rfl⟩
                  have hmem : e ∈ evs := List.take_subset m evs he
                  have hbe := He iter b evs hev e hmem
                  simp [SyncCheckpoint.from_log_id, hbe]
            | error u =>
              rw [syncLoop_events_error hstop hh hb hev]
              have ihh := ih (iter + 1) cp b
              exact ⟨by simpa [savesOf] using ihh.1, by simpa [savesOf] using ihh.2⟩
          · rw [syncLoop_wait hstop hh hb]
            have ihh := ih (iter + 1) cp b
            exact ⟨by simpa [savesOf] using ihh.1, by simpa [savesOf] using ihh.2⟩

theorem eventsOneBlock_block :
    ∀ i bn evs, eventsOneBlock i bn = Except.ok evs → ∀ e ∈ evs, e.id.block_num = bn := by
  intro i bn evs h e he
  unfold eventsOneBlock at h
  by_cases hbn : bn = 0
  · subst hbn
    rw [if_pos rfl] at h
    injection h with h
    subst h
    rcases List.mem_singleton.mp he with rfl
    rfl
  · rw [if_neg hbn] at h
    injection h with h
    subst h
    cases he

theorem eventsOneBlock_sorted :
    ∀ i bn evs, eventsOneBlock i bn = Except.ok evs →
      evs.Pairwise (fun x y : PayIn => LogId.ltLex x.id y.id) := by
  intro i bn evs h
  unfold eventsOneBlock at h
  by_cases hbn : bn = 0
  · subst hbn
    rw [if_pos rfl] at h
    injection h with h
    subst h
    exact List.pairwise_singleton _ _
  · rw [if_neg hbn] at h
    injection h with h
    subst h
    exact List.Pairwise.nil

/-- C1 counterexample: the claim says the re-scan of block N filters out
every event whose id is at most the stored event id.  With the stored
event-partial checkpoint (1,0,2) and the re-scanned events
[(1,0,1), (1,0,2)], the first event is skipped but its checkpoint is saved
unconditionally, regressing the repository below (1,0,2); the second event
— whose id equals the stored id — is then relayed: a relay call for it
appears in the trace. -/
theorem c1_resume_filter_counterexample :
    LogId.leLex ev102.id ⟨1, 0, 2⟩ ∧
    Action.relayCall "dest" ev102 ∈
      (processEvents (Relay.Single "dest") (fun _ _ _ => none)
        (some (SyncCheckpoint.from_log_id ⟨1, 0, 2⟩)) [ev101, ev102]).1 := by
  decide

/-- C1 (amended): on entry to syncing the listener computes the first block
to process as follows: with no checkpoint it is `start_block`; with a
checkpoint and `start_block` strictly above its block number it is
`start_block` (operator override); with a block-complete checkpoint it is
the checkpoint block number plus one; with an event-partial checkpoint for
block N it is N.  On the re-scan of block N the filter is applied per event
against the checkpoint read at that moment — the stored checkpoint only for
the first event, since every processed event overwrites it: an event whose
checkpoint is not strictly above the current one is skipped with only the
checkpoint save; in particular the first re-scanned event is filtered out
iff its id is at most the stored event id. -/
theorem c1_initial_block_computation (sb : Nat) (c cur : SyncCheckpoint)
    (stored evId : LogId) :
    initialBlockNumberToSync none sb = sb ∧
    (sb > c.block_num → initialBlockNumberToSync (some c) sb = sb) ∧
    (sb ≤ c.block_num → c.just_block_num = true →
      initialBlockNumberToSync (some c) sb = c.block_num + 1) ∧
    (sb ≤ c.block_num → c.just_block_num = false →
      initialBlockNumberToSync (some c) sb = c.block_num) ∧
    (∀ {R : Type} (relay : Relay R) (behavior : R → PayIn → Nat → Option RelayError)
      (ev : PayIn), SyncCheckpoint.lt cur (SyncCheckpoint.from_log_id ev.id) = false →
      processEvent relay behavior (some cur) ev =
        ([Action.save (SyncCheckpoint.from_log_id ev.id)],
          some (SyncCheckpoint.from_log_id ev.id), true)) ∧
    (LogId.leLex evId stored →
      SyncCheckpoint.lt (SyncCheckpoint.from_log_id stored)
        (SyncCheckpoint.from_log_id evId) = false) := by
  refine ⟨rfl, ?_, ?_, ?_, ?_, ?_⟩
  · intro h
    simp only [initialBlockNumberToSync]
    rw [if_pos h]
  · intro h1 h2
    simp only [initialBlockNumberToSync]
    rw [if_neg (by omega), if_pos h2]
  · intro h1 h2
    simp only [initialBlockNumberToSync]
    rw [if_neg (by omega), if_neg (by simp [h2])]
  · intro R relay behavior ev hf
    have hstep : processEventStep relay behavior (some cur) ev = ([], true) := by
      unfold processEventStep
      cases hr : routeEvent relay ev with
      | none => rfl
      | some r =>
        show (if SyncCheckpoint.lt cur (SyncCheckpoint.from_log_id ev.id) = true then
          relayAttempts r ev (behavior r ev) else ([], true)) = ([], true)
        rw [if_neg (by simp [hf])]
    rw [processEvent_of_step_true (by rw [hstep]), hstep]
    simp
  · intro hle
    exact lt_from_log_id_false_of_leLex hle

/-- C1 witness: the four entry computations, the current-checkpoint filter
at a concrete skipped event, and the first-event filter condition at a
stored id above the event id. -/
theorem c1_initial_block_computation_witness :
    initialBlockNumberToSync none 4 = 4 ∧
    initialBlockNumberToSync (some (SyncCheckpoint.from_block_num 2)) 7 = 7 ∧
    initialBlockNumberToSync (some (SyncCheckpoint.from_block_num 9)) 4 = 10 ∧
    initialBlockNumberToSync (some (SyncCheckpoint.from_log_id ⟨9, 1, 2⟩)) 4 = 9 ∧
    processEvent (Relay.Single "dest") (fun _ _ _ => none)
      (some (SyncCheckpoint.from_log_id ⟨9, 1, 2⟩)) evResume =
      ([Action.save (SyncCheckpoint.from_log_id ⟨9, 1, 1⟩)],
        some (SyncCheckpoint.from_log_id ⟨9, 1, 1⟩), true) ∧
    SyncCheckpoint.lt (SyncCheckpoint.from_log_id ⟨9, 1, 2⟩)
      (SyncCheckpoint.from_log_id ⟨9, 1, 1⟩) = false :=
  ⟨(c1_initial_block_computation 4 (SyncCheckpoint.from_block_num 0)
      (SyncCheckpoint.from_block_num 0) ⟨0, 0, 0⟩ ⟨0, 0, 0⟩).1,
    (c1_initial_block_computation 7 (SyncCheckpoint.from_block_num 2)
      (SyncCheckpoint.from_block_num 0) ⟨0, 0, 0⟩ ⟨0, 0, 0⟩).2.1 (by decide),
    (c1_initial_block_computation 4 (SyncCheckpoint.from_block_num 9)
      (SyncCheckpoint.from_block_num 0) ⟨0, 0, 0⟩ ⟨0, 0, 0⟩).2.2.1 (by decide) (by decide),
    (c1_initial_block_computation 4 (SyncCheckpoint.from_log_id ⟨9, 1, 2⟩)
      (SyncCheckpoint.from_block_num 0) ⟨0, 0, 0⟩ ⟨0, 0, 0⟩).2.2.2.1 (by decide) (by decide),
    (c1_initial_block_computation 4 (SyncCheckpoint.from_block_num 0)
      (SyncCheckpoint.from_log_id ⟨9, 1, 2⟩) ⟨0, 0, 0⟩ ⟨0, 0, 0⟩).2.2.2.2.1
      (Relay.Single "dest") (fun _ _ _ => none) evResume (by decide),
    (c1_initial_block_computation 4 (SyncCheckpoint.from_block_num 0)
      (SyncCheckpoint.from_block_num 0) ⟨9, 1, 2⟩ ⟨9, 1, 1⟩).2.2.2.2.2 (by decide)⟩

/-- C4 counterexample: the claim says a block-complete checkpoint at N is
strictly greater than every event-partial checkpoint of block N; at N = 5
and the event-partial checkpoint (5, 0, 0) the comparison yields Less, not
Greater. -/
theorem c4_counterexample :
    SyncCheckpoint.cmp (SyncCheckpoint.from_block_num 5)
      (SyncCheckpoint.from_log_id ⟨5, 0, 0⟩) = Ordering.lt ∧
    ¬ SyncCheckpoint.cmp (SyncCheckpoint.from_block_num 5)
      (SyncCheckpoint.from_log_id ⟨5, 0, 0⟩) = Ordering.gt := by
  decide

/-- C4 (amended): under the ethereum `SyncCheckpoint` order a block-complete
checkpoint at block N is strictly LESS than every event-partial checkpoint
of the same block N (`None` sorts below any index), and strictly less than
every checkpoint of block N + 1. -/
theorem c4_block_complete_order (N t l : Nat) (c : SyncCheckpoint)
    (hc : c.block_num = N + 1) :
    SyncCheckpoint.lt (SyncCheckpoint.from_block_num N)
      (SyncCheckpoint.from_log_id ⟨N, t, l⟩) = true ∧
    SyncCheckpoint.lt (SyncCheckpoint.from_block_num N) c = true := by
  constructor
  · simp only [SyncCheckpoint.lt, SyncCheckpoint.cmp, SyncCheckpoint.from_block_num,
      SyncCheckpoint.from_log_id, SyncCheckpoint.optCmp, decide_eq_true_eq]
    rw [if_neg (by omega), if_neg (by omega)]
    simp
  · exact lt_of_block_lt _ _ (by simp [SyncCheckpoint.from_block_num, hc])

/-- C4 witness: the amended order at block 5 against the event-partial
checkpoint (5, 0, 0) and the block-complete checkpoint at 6. -/
theorem c4_block_complete_order_witness :
    SyncCheckpoint.lt (SyncCheckpoint.from_block_num 5)
      (SyncCheckpoint.from_log_id ⟨5, 0, 0⟩) = true ∧
    SyncCheckpoint.lt (SyncCheckpoint.from_block_num 5)
      (SyncCheckpoint.from_block_num 6) = true :=
  c4_block_complete_order 5 0 0 (SyncCheckpoint.from_block_num 6) (by decide)

/-- C5: the router never causes a relay call for an event it does not route:
a single route always selects the configured relayer whatever the
destination key; a multi route selects nothing when the event carries no
destination key or the key is absent from the map; and an event with no
selected relayer is processed without any relay call, without error and
without retry (its trace is just the checkpoint save). -/
theorem c5_unrouted_event_no_relay_call {R : Type} (r : R) (m : List (String × R))
    (relay : Relay R) (behavior : R → PayIn → Nat → Option RelayError)
    (cp : Option SyncCheckpoint) (ev : PayIn) (d : String) :
    routeEvent (Relay.Single r) ev = some r ∧
    (ev.maybe_destination_id = none → routeEvent (Relay.Multi m) ev = none) ∧
    (ev.maybe_destination_id = some d → mapGet m d = none →
      routeEvent (Relay.Multi m) ev = none) ∧
    (routeEvent relay ev = none →
      callsFor ev (processEvent relay behavior cp ev).1 = 0 ∧
      (processEvent relay behavior cp ev).2.2 = true ∧
      processEvent relay behavior cp ev =
        ([Action.save (SyncCheckpoint.from_log_id ev.id)],
          some (SyncCheckpoint.from_log_id ev.id), true)) := by
  refine ⟨rfl, ?_, ?_, ?_⟩
  · intro h
    simp [routeEvent, h]
  · intro h1 h2
    simp [routeEvent, h1, h2]
  · intro h
    have hstep : processEventStep relay behavior cp ev = ([], true) := by
      simp [processEventStep, h]
    have heq : processEvent relay behavior cp ev =
        ([Action.save (SyncCheckpoint.from_log_id ev.id)],
          some (SyncCheckpoint.from_log_id ev.id), true) := by
      rw [processEvent_of_step_true (by rw [hstep]), hstep]
      simp
    rw [heq]
    exact ⟨by simp [callsFor], rfl, rfl⟩

/-- C5 witness: a multi route with an empty map at the concrete event
`evB0`. -/
theorem c5_unrouted_event_no_relay_call_witness :
    routeEvent (Relay.Single "dest") evB0 = some "dest" ∧
    routeEvent (Relay.Multi ([] : List (String × String))) evB0 = none ∧
    callsFor evB0 (processEvent (Relay.Multi ([] : List (String × String)))
      (fun _ _ _ => none) none evB0).1 = 0 ∧
    processEvent (Relay.Multi ([] : List (String × String)))
      (fun _ _ _ => none) none evB0 =
      ([Action.save (SyncCheckpoint.from_log_id evB0.id)],
        some (SyncCheckpoint.from_log_id evB0.id), true) := by
  have h := c5_unrouted_event_no_relay_call "dest"
    ([] : List (String × String)) (Relay.Multi ([] : List (String × String)))
    (fun _ _ _ => none) none evB0 "dest"
  have hroute : routeEvent (Relay.Multi ([] : List (String × String))) evB0 = none :=
    h.2.2.1 (by decide) (by decide)
  exact ⟨h.1, hroute, (h.2.2.2 hroute).1, (h.2.2.2 hroute).2.2⟩

/-- C6: on `AlreadyRelayed` the listener treats the event as a
success-equivalent terminal outcome: exactly one relay call (no retry), the
loop continues rather than failing, and the event checkpoint is saved. -/
theorem c6_already_relayed_terminal {R : Type} (relay : Relay R)
    (behavior : R → PayIn → Nat → Option RelayError) (cp : Option SyncCheckpoint)
    (ev : PayIn) (r : R)
    (hroute : routeEvent relay ev = some r)
    (hbeh : behavior r ev 1 = some RelayError.AlreadyRelayed)
    (hfilter : cp = none ∨ ∃ c, cp = some c ∧
      SyncCheckpoint.lt c (SyncCheckpoint.from_log_id ev.id) = true) :
    processEvent relay behavior cp ev =
      ([Action.relayCall r ev, Action.save (SyncCheckpoint.from_log_id ev.id)],
        some (SyncCheckpoint.from_log_id ev.id), true) := by
  have hra : relayAttempts r ev (behavior r ev) = ([Action.relayCall r ev], true) := by
    simp [relayAttempts, relayGo, hbeh]
  have hstep : processEventStep relay behavior cp ev = ([Action.relayCall r ev], true) := by
    rcases hfilter with rfl | ⟨c, rfl, hcf⟩
    · simp [processEventStep, hroute, hra]
    · simp [processEventStep, hroute, hcf, hra]
  rw [processEvent_of_step_true (by rw [hstep]), hstep]
  rfl

/-- C6 witness: a single route whose relayer reports `AlreadyRelayed` at the
first attempt for `evB0`, with no prior checkpoint. -/
theorem c6_already_relayed_terminal_witness :
    processEvent (Relay.Single "dest")
      (fun _ _ _ => some RelayError.AlreadyRelayed) none evB0 =
      ([Action.relayCall "dest" evB0,
        Action.save (SyncCheckpoint.from_log_id evB0.id)],
        some (SyncCheckpoint.from_log_id evB0.id), true) :=
  c6_already_relayed_terminal (Relay.Single "dest")
    (fun _ _ _ => some RelayError.AlreadyRelayed) none evB0 "dest"
    rfl rfl (Or.inl rfl)

/-- C7 counterexample: the claim says that when the transaction was
submitted but its confirmation could not be observed the relayer returns
the Watch error; the substrate relayer maps the failed
`wait_for_finalized_success` to `Other`, which is not `WatchError`. -/
theorem c7_watch_counterexample :
    substrateRelayResult
      { connect := true, readKey := true, createSigner := true,
        submit := true, waitFinalized := false } = some RelayError.Other ∧
    RelayError.Other ≠ RelayError.WatchError := by
  decide

/-- C7 (amended): when the transaction was submitted but its confirmation
could not be observed the substrate relayer returns the `Other` error (not
`Watch`); and when a relay attempt does return `Watch` the listener retries
the same event immediately, with no sleep, the retry counted against the
same attempt budget. -/
theorem c7_confirmation_error_and_watch_retry {R : Type} (r : R) (ev : PayIn)
    (outcome : Nat → Option RelayError) (attempt rem : Nat) (env : SubstrateRelayEnv)
    (hc : env.connect = true) (hk : env.readKey = true) (hsg : env.createSigner = true)
    (hsub : env.submit = true) (hw : env.waitFinalized = false)
    (hwatch : outcome attempt = some RelayError.WatchError) :
    substrateRelayResult env = some RelayError.Other ∧
    relayGo r ev outcome attempt (rem + 1) =
      (Action.relayCall r ev :: (relayGo r ev outcome (attempt + 1) rem).1,
        (relayGo r ev outcome (attempt + 1) rem).2) := by
  constructor
  · simp [substrateRelayResult, hc, hk, hsg, hsub, hw]
  · simp [relayGo, hwatch]

/-- C7 witness: the submitted-but-unconfirmed environment, and one Watch
outcome at attempt 1 of the 10-attempt loop. -/
theorem c7_confirmation_error_and_watch_retry_witness :
    substrateRelayResult
      { connect := true, readKey := true, createSigner := true,
        submit := true, waitFinalized := false } = some RelayError.Other ∧
    relayGo "dest" evB0 (fun _ => some RelayError.WatchError) 1 10 =
      (Action.relayCall "dest" evB0 ::
        (relayGo "dest" evB0 (fun _ => some RelayError.WatchError) 2 9).1,
        (relayGo "dest" evB0 (fun _ => some RelayError.WatchError) 2 9).2) :=
  c7_confirmation_error_and_watch_retry "dest" evB0
    (fun _ => some RelayError.WatchError) 1 9
    { connect := true, readKey := true, createSigner := true,
      submit := true, waitFinalized := false }
    rfl rfl rfl rfl rfl rfl

/-- C8: code-bug exhibit.  When no connection to the source chain could be
established (`self.client` is `None`), `get_block_pay_in_events` returns
the successful empty sequence `Ok(vec![])` — even for a block that does
hold a deposit — while the sibling `get_last_finalized_block_num` returns
`Err(())` in the same situation. -/
theorem c8_fetcher_no_connection_ok_empty :
    fetcher_get_block_pay_in_events false (Except.ok [sampleSubEvent]) =
      Except.ok [] ∧
    fetcher_get_block_pay_in_events false (Except.error ()) = Except.ok [] ∧
    fetcher_get_last_finalized_block_num false (Except.ok 5) = Except.error () :=
  ⟨rfl, rfl, rfl⟩

/-- C9: code-bug exhibit.  A configuration whose two listeners share
`chain_id = 0` passes `validate` with `Ok(())`: no chain-id uniqueness
check is performed, although the error variant `ListenerChainIdNotUnique`
is declared for exactly that rule. -/
theorem c9_duplicate_chain_id_accepted :
    cfgDupChainId.listeners.map (fun l => l.chain_id) = [0, 0] ∧
    BridgeConfig.validate cfgDupChainId = Except.ok () :=
  ⟨rfl, rfl⟩

/-- C10: for every event the fetcher returned for a block — routed or not,
filtered or not — the listener saves the event-partial checkpoint of that
event, in event order, and after the last event it saves the
block-complete checkpoint of the block; in particular an event routed to no
relayer still advances the checkpoint. -/
theorem c10_every_event_checkpointed {R : Type} (relay : Relay R)
    (behavior : R → PayIn → Nat → Option RelayError)
    (cp cp2 : Option SyncCheckpoint) (b : Nat) (evs : List PayIn) (ev : PayIn) :
    ((processBlock relay behavior cp b evs).2.2 = true →
      savesOf (processBlock relay behavior cp b evs).1 =
        evs.map (fun e => SyncCheckpoint.from_log_id e.id) ++
          [SyncCheckpoint.from_block_num b]) ∧
    (routeEvent relay ev = none →
      processEvent relay behavior cp2 ev =
        ([Action.save (SyncCheckpoint.from_log_id ev.id)],
          some (SyncCheckpoint.from_log_id ev.id), true)) := by
  constructor
  · intro h
    have hpe : (processEvents relay behavior cp evs).2.2 = true := by
      rw [← processBlock_snd relay behavior cp b evs]
      exact h
    rw [processBlock_of_events_true hpe, savesOf_append, processEvents_ok_savesOf hpe]
    simp [savesOf]
  · intro h
    have hstep : processEventStep relay behavior cp2 ev = ([], true) := by
      simp [processEventStep, h]
    rw [processEvent_of_step_true (by rw [hstep]), hstep]
    simp

/-- C10 witness: a block holding exactly `evB0` under a multi route that
routes nothing: the block completes and both checkpoints are saved. -/
theorem c10_every_event_checkpointed_witness :
    savesOf (processBlock (Relay.Multi ([] : List (String × String)))
      (fun _ _ _ => none) none 0 [evB0]).1 =
      [SyncCheckpoint.from_log_id evB0.id, SyncCheckpoint.from_block_num 0] ∧
    processEvent (Relay.Multi ([] : List (String × String)))
      (fun _ _ _ => none) none evB0 =
      ([Action.save (SyncCheckpoint.from_log_id evB0.id)],
        some (SyncCheckpoint.from_log_id evB0.id), true) :=
  ⟨(c10_every_event_checkpointed (Relay.Multi ([] : List (String × String)))
      (fun _ _ _ => none) none none 0 [evB0] evB0).1 (by decide),
    (c10_every_event_checkpointed (Relay.Multi ([] : List (String × String)))
      (fun _ _ _ => none) none none 0 [evB0] evB0).2 (by decide)⟩

/-- C2: if the relayer returns the transient Transport error on every
attempt for some event, then in every run that reaches that event (a relay
call for it occurs in the trace) `sync` terminates in the Failed state,
made exactly 10 relay attempts for that event, and the checkpoint was not
advanced to or past that event: every checkpoint saved during the run is
strictly below the event-partial checkpoint of that event.  The fetcher
hypotheses are its contract: events of a block carry that block number, in
strictly increasing id order. -/
theorem c2_transport_retry_exhaustion {R : Type} (env : SyncEnv R) (relay : Relay R)
    (ev : PayIn) (r₀ : R) (fuel iter : Nat) (cp : Option SyncCheckpoint) (b : Nat)
    (He : ∀ i bn evs, env.events i bn = Except.ok evs → ∀ e ∈ evs, e.id.block_num = bn)
    (Hs : ∀ i bn evs, env.events i bn = Except.ok evs →
      evs.Pairwise (fun x y => LogId.ltLex x.id y.id))
    (Hb : ∀ r a, env.behavior r ev a = some RelayError.TransportError)
    (Hcall : Action.relayCall r₀ ev ∈ (syncLoop env relay iter cp b fuel).1) :
    (syncLoop env relay iter cp b fuel).2.2 = SyncResult.failed ∧
    callsFor ev (syncLoop env relay iter cp b fuel).1 = 10 ∧
    ∀ c ∈ savesOf (syncLoop env relay iter cp b fuel).1,
      SyncCheckpoint.lt c (SyncCheckpoint.from_log_id ev.id) = true :=
  syncLoop_transport_of_call He Hs Hb fuel iter cp b Hcall

/-- C2 witness: the always-Transport environment over a single block holding
`evB0`: the run fails, with 10 calls for `evB0` and no checkpoint at or past
it. -/
theorem c2_transport_retry_exhaustion_witness :
    (syncLoop envTransport (Relay.Single "dest") 0 none 0 1).2.2 =
      SyncResult.failed ∧
    callsFor evB0 (syncLoop envTransport (Relay.Single "dest") 0 none 0 1).1 = 10 ∧
    ∀ c ∈ savesOf (syncLoop envTransport (Relay.Single "dest") 0 none 0 1).1,
      SyncCheckpoint.lt c (SyncCheckpoint.from_log_id evB0.id) = true :=
  c2_transport_retry_exhaustion envTransport (Relay.Single "dest") evB0 "dest"
    1 0 none 0 eventsOneBlock_block eventsOneBlock_sorted (fun _ _ => rfl)
    (by decide)

/-- C3 counterexample: in a run over one block holding one event the
listener saves the event-partial checkpoint (0,0,0) and then the
block-complete checkpoint of block 0; under the order stated by the claim —
`(block_num, event_id | None)` with `None` sorting below any event, which is
the `SyncCheckpoint` comparison — the second save is strictly below the
first, so the save sequence is not non-decreasing. -/
theorem c3_monotonicity_counterexample :
    savesOf (syncLoop envOk (Relay.Single "dest") 0 none 0 1).1 =
      [SyncCheckpoint.from_log_id ⟨0, 0, 0⟩, SyncCheckpoint.from_block_num 0] ∧
    SyncCheckpoint.le (SyncCheckpoint.from_log_id ⟨0, 0, 0⟩)
      (SyncCheckpoint.from_block_num 0) = false ∧
    SyncCheckpoint.lt (SyncCheckpoint.from_block_num 0)
      (SyncCheckpoint.from_log_id ⟨0, 0, 0⟩) = true := by
  decide

/-- C3 (amended): during one sync run the sequence of saved checkpoints is
non-decreasing under the order in which a block-complete checkpoint sorts
above the event-partial checkpoints of its own block and below every
checkpoint of later blocks, provided the fetcher returns the events of each
block with matching block number and strictly increasing ids. -/
theorem c3_checkpoint_saves_monotone {R : Type} (env : SyncEnv R) (relay : Relay R)
    (fuel iter : Nat) (cp : Option SyncCheckpoint) (b : Nat)
    (He : ∀ i bn evs, env.events i bn = Except.ok evs → ∀ e ∈ evs, e.id.block_num = bn)
    (Hs : ∀ i bn evs, env.events i bn = Except.ok evs →
      evs.Pairwise (fun x y => LogId.ltLex x.id y.id)) :
    List.Pairwise SyncCheckpoint.leCompleteTop
      (savesOf (syncLoop env relay iter cp b fuel).1) :=
  (syncLoop_saves_monotone He Hs fuel iter cp b).1

/-- C3 witness: the all-Ok environment over a single block, run for two
iterations. -/
theorem c3_checkpoint_saves_monotone_witness :
    List.Pairwise SyncCheckpoint.leCompleteTop
      (savesOf (syncLoop envOk (Relay.Single "dest") 0 none 0 2).1) :=
  c3_checkpoint_saves_monotone envOk (Relay.Single "dest") 2 0 none 0
    eventsOneBlock_block eventsOneBlock_sorted

end OmniBridge
